import Mathlib

/-!
Verification of the response-to-table formatting subsystem of
`wallet_integration.py` (vaults.fyi SDK example implementation).

The Python payloads are semi-structured JSON-like data; we embed them as the
inductive type `Value`.  Python numbers are modelled as exact rationals
(binary floating-point representation error is out of scope; none of the
verified properties depends on it).  Dictionaries are insertion-ordered
association lists with string keys, matching the shape of parsed API
responses.  Operations that can raise in Python (attribute errors on
`.get`, `float()` value errors, format-code errors, `len()` type errors)
are embedded in `Except String`, the error string recording the kind of
Python exception raised.

The table-rendering primitive `tabulate` is an external collaborator: each
formatter is modelled up to the rows and headers it passes to `tabulate`
(constructor `FmtResult.table`), or the literal fallback message it returns
instead (`FmtResult.message`).  `format_transaction_blob` additionally
prefixes a fixed banner line to the rendered table; the banner carries no
data and is not modelled.
-/

inductive Value where
  | vNull : Value
  | vBool : Bool → Value
  | vNum : ℚ → Value
  | vStr : String → Value
  | vList : List Value → Value
  | vDict : List (String × Value) → Value

open Value

/-- Python truthiness: `None`, `False`, `0`, `""`, `[]` and an empty dict are
falsy; everything else is truthy. -/
def truthy : Value → Bool
  | vNull => false
  | vBool b => b
  | vNum q => decide (q ≠ 0)
  | vStr s => !s.isEmpty
  | vList xs => !xs.isEmpty
  | vDict es => !es.isEmpty

/-- First binding of a key in an association list (Python dict keys are
unique, so first = only). -/
def dlookup : List (String × Value) → String → Option Value
  | [], _ => none
  | (k, v) :: rest, key => if k = key then some v else dlookup rest key

/-- Result of `d.get(key)` as a total function on the underlying entry list
(`None` when the key is absent). -/
def lookD (es : List (String × Value)) (key : String) : Value :=
  (dlookup es key).getD vNull

def isDictV : Value → Bool
  | vDict _ => true
  | _ => false

/-- Embedding of `obj.get(key, default)`: succeeds only on dicts; on any other receiver
Python raises `AttributeError`. -/
def pyGetD (obj : Value) (key : String) (default : Value) : Except String Value :=
  match obj with
  | vDict es => .ok ((dlookup es key).getD default)
  | _ => .error "AttributeError: object has no attribute get"

/-- Iteration `for x in obj`: lists yield elements, dicts their keys, strings their
single-character substrings; other values raise `TypeError`. -/
def pyIter : Value → Except String (List Value)
  | vList xs => .ok xs
  | vDict es => .ok (es.map (fun kv => vStr kv.1))
  | vStr s => .ok (s.data.map (fun c => vStr (String.mk [c])))
  | _ => .error "TypeError: object is not iterable"

/-- Embedding of `len(obj)` for sized values; raises `TypeError` otherwise. -/
def pyLen : Value → Except String Nat
  | vStr s => .ok s.data.length
  | vList xs => .ok xs.length
  | vDict es => .ok es.length
  | _ => .error "TypeError: object has no len"

/-- Subscripting `obj[i]` for a natural index: list/str indexing (with `IndexError` past
the end); an integer subscript on a string-keyed dict raises `KeyError`. -/
def pyIndex : Value → Nat → Except String Value
  | vList xs, i =>
    match xs.get? i with
    | some v => .ok v
    | none => .error "IndexError: list index out of range"
  | vStr s, i =>
    match s.data.get? i with
    | some c => .ok (vStr (String.mk [c]))
    | none => .error "IndexError: string index out of range"
  | vDict _, _ => .error "KeyError"
  | _, _ => .error "TypeError: object is not subscriptable"

/-- Sequencing of fallible steps (Python: an uncaught exception aborts the
call); this is exactly `Except.bind`, written as a plain definition so that
proofs unfold it by `simp`. -/
def ebind (e : Except String α) (f : α → Except String β) : Except String β :=
  match e with
  | .error msg => .error msg
  | .ok a => f a

@[simp] theorem ebind_ok (a : α) (f : α → Except String β) : ebind (.ok a) f = f a := rfl

@[simp] theorem ebind_error (msg : String) (f : α → Except String β) :
    ebind (.error msg) f = .error msg := rfl

def exOk : Except String α → Bool
  | .ok _ => true
  | .error _ => false

@[simp] theorem exOk_ok (a : α) : exOk (Except.ok a : Except String α) = true := rfl

@[simp] theorem exOk_error (m : String) : exOk (Except.error m : Except String α) = false := rfl

/-- A `for`-loop that appends one result (or block of results) per element
and propagates the first raised exception. -/
def exMapM (f : α → Except String β) : List α → Except String (List β)
  | [] => .ok []
  | x :: xs =>
    match f x with
    | .error e => .error e
    | .ok y =>
      match exMapM f xs with
      | .error e => .error e
      | .ok ys => .ok (y :: ys)

def flat : List (List α) → List α
  | [] => []
  | x :: xs => x ++ flat xs

theorem exOk_exists {e : Except String α} (h : exOk e = true) : ∃ a, e = .ok a := by
  cases e with
  | ok a => exact ⟨a, rfl⟩
  | error m => simp [exOk] at h

theorem exMapM_ok {f : α → Except String β} :
    ∀ {xs : List α}, (∀ x ∈ xs, exOk (f x) = true) → exOk (exMapM f xs) = true := by
  intro xs
  induction xs with
  | nil => intro _; rfl
  | cons x rest ih =>
    intro h
    have hx := h x (List.mem_cons_self x rest)
    obtain ⟨y, hy⟩ := exOk_exists hx
    have hrest := ih (fun z hz => h z (List.mem_cons_of_mem x hz))
    obtain ⟨ys, hys⟩ := exOk_exists hrest
    simp [exMapM, hy, hys]

theorem exMapM_length {f : α → Except String β} :
    ∀ {xs : List α} {ys : List β}, exMapM f xs = .ok ys → ys.length = xs.length := by
  intro xs
  induction xs with
  | nil => intro ys h; simp [exMapM] at h; simp [← h]
  | cons x rest ih =>
    intro ys h
    simp only [exMapM] at h
    cases hfx : f x with
    | error e => rw [hfx] at h; exact absurd h (by simp)
    | ok y =>
      rw [hfx] at h
      cases hrest : exMapM f rest with
      | error e => rw [hrest] at h; exact absurd h (by simp)
      | ok zs =>
        rw [hrest] at h
        cases h
        simp [ih hrest]

theorem exMapM_get {f : α → Except String β} :
    ∀ {xs : List α} {ys : List β}, exMapM f xs = .ok ys →
      ∀ i (hi : i < xs.length) (hi2 : i < ys.length),
        f (xs.get ⟨i, hi⟩) = .ok (ys.get ⟨i, hi2⟩) := by
  intro xs
  induction xs with
  | nil => intro ys h i hi; exact absurd hi (by simp)
  | cons x rest ih =>
    intro ys h i hi hi2
    simp only [exMapM] at h
    cases hfx : f x with
    | error e => rw [hfx] at h; exact absurd h (by simp)
    | ok y =>
      rw [hfx] at h
      cases hrest : exMapM f rest with
      | error e => rw [hrest] at h; exact absurd h (by simp)
      | ok zs =>
        rw [hrest] at h
        cases h
        match i with
        | 0 => simpa using hfx
        | Nat.succ j =>
          exact ih hrest j (Nat.lt_of_succ_lt_succ hi) (Nat.lt_of_succ_lt_succ hi2)

theorem flat_length : ∀ (L : List (List α)), (flat L).length = (L.map List.length).sum := by
  intro L
  induction L with
  | nil => rfl
  | cons x xs ih => simp [flat, ih]

/-! ## Scalar parsing and rendering -/

def digitsToNat (l : List Char) : ℕ :=
  l.foldl (fun a c => 10 * a + (c.toNat - 48)) 0

/-- Embedding of `float(s)` on an unsigned decimal literal: digits with at most one dot
and at least one digit in total; anything else raises `ValueError`.
(Python additionally accepts surrounding whitespace, exponents, underscores
and `inf`/`nan`; no verified property depends on those forms.)  The result
is built with `mkRat` so that it evaluates by kernel reduction. -/
def parseUnsigned (l : List Char) : Except String ℚ :=
  let intPart := l.takeWhile (fun c => c ≠ '.')
  let rest := l.dropWhile (fun c => c ≠ '.')
  match rest with
  | [] =>
    if !intPart.isEmpty && intPart.all Char.isDigit then .ok (mkRat (digitsToNat intPart) 1)
    else .error "ValueError: could not convert string to float"
  | _ :: frac =>
    if !(intPart.isEmpty && frac.isEmpty) && intPart.all Char.isDigit && frac.all Char.isDigit
    then .ok (mkRat (digitsToNat intPart * 10 ^ frac.length + digitsToNat frac)
      (10 ^ frac.length))
    else .error "ValueError: could not convert string to float"

def parseDecimal (s : String) : Except String ℚ :=
  match s.data with
  | '-' :: rest =>
    match parseUnsigned rest with
    | .ok q => .ok (mkRat (-q.num) q.den)
    | .error e => .error e
  | '+' :: rest => parseUnsigned rest
  | l => parseUnsigned l

/-- Embedding of `float(value)`: numbers pass through, booleans coerce to 0/1, numeric
strings parse; `None` and containers raise `TypeError`. -/
def pyFloat : Value → Except String ℚ
  | vNum q => .ok q
  | vBool b => .ok (if b then 1 else 0)
  | vStr s => parseDecimal s
  | _ => .error "TypeError: float argument must be a string or a number"

/-- Round `n / d` (with `d > 0`) to the nearest integer, ties to even — the
rounding used by format-spec `f` rendering.  Stated on numerator and
denominator so that it computes with integer arithmetic only. -/
def roundHalfEvenND (n d : ℤ) : ℤ :=
  let f : ℤ := Int.fdiv n d
  let rem : ℤ := n - f * d
  if 2 * rem < d then f
  else if d < 2 * rem then f + 1
  else if f % 2 = 0 then f else f + 1

def padZeros (s : String) (k : ℕ) : String :=
  if s.length ≥ k then s else String.mk (List.replicate (k - s.length) '0') ++ s

/-- Fixed-point rendering, the embedding of an f-string `:.{prec}f` format
spec applied to a number: round `value * 10 ^ prec` half-to-even and print
with the decimal point re-inserted. -/
def formatFixed (q : ℚ) (prec : ℕ) : String :=
  let scaled : ℤ := roundHalfEvenND (q.num * ((10 ^ prec : ℕ) : ℤ)) (q.den : ℤ)
  let n : ℕ := scaled.natAbs
  let base : ℕ := 10 ^ prec
  (if scaled < 0 then "-" else "") ++ toString (n / base) ++
    (if prec = 0 then "" else "." ++ padZeros (toString (n % base)) prec)

/-- Multiplication by 100 performed on the numerator (value-equal to
`q * 100`, see `qmul100_eq`; stated this way so it evaluates by kernel
reduction, which the library's rational multiplication does not). -/
def qmul100 (q : ℚ) : ℚ := mkRat (q.num * 100) q.den

theorem qmul100_eq (q : ℚ) : qmul100 q = q * 100 := by
  unfold qmul100
  rw [Rat.mkRat_eq_div]
  push_cast
  rw [mul_comm (q.num : ℚ) 100, mul_div_assoc, Rat.num_div_den, mul_comm]

/-- Rendering `str()` of a number.  Integers print without a decimal point, finite
decimals with their shortest decimal expansion; other rationals (never
produced by the claims checked here) fall back to a fraction form. -/
def numRepr (q : ℚ) : String :=
  if q.den = 1 then toString q.num
  else
    match (List.range 31).find? (fun k => 10 ^ k % q.den = 0) with
    | some k =>
      let scaled : ℕ := q.num.natAbs * 10 ^ k / q.den
      (if q.num < 0 then "-" else "") ++ toString (scaled / 10 ^ k) ++ "." ++
        padZeros (toString (scaled % 10 ^ k)) k
    | none => toString q.num ++ "/" ++ toString q.den

mutual

/-- Python `repr`, used for values nested inside containers. -/
def pyRepr : Value → String
  | vNull => "None"
  | vBool true => "True"
  | vBool false => "False"
  | vNum q => numRepr q
  | vStr s => "\x27" ++ s ++ "\x27"
  | vList xs => "[" ++ pyReprList xs ++ "]"
  | vDict es => "\x7b" ++ pyReprDict es ++ "\x7d"

def pyReprList : List Value → String
  | [] => ""
  | [x] => pyRepr x
  | x :: y :: rest => pyRepr x ++ ", " ++ pyReprList (y :: rest)

def pyReprDict : List (String × Value) → String
  | [] => ""
  | [(k, v)] => "\x27" ++ k ++ "\x27: " ++ pyRepr v
  | (k, v) :: e :: rest => "\x27" ++ k ++ "\x27: " ++ pyRepr v ++ ", " ++ pyReprDict (e :: rest)

end

/-- Python `str()`: identity on strings, `repr` otherwise. -/
def pyStr : Value → String
  | vStr s => s
  | v => pyRepr v

/-! ## Truncation (`truncate_value` in `format_transaction_blob`, and the
inline name-shortening in the deposit-option and position builders) -/

/-- Python slice `l[:m]` on a character list, including the negative-bound
form (`l[:-k]` drops the last `k` characters). -/
def pyTake (l : List Char) (m : ℤ) : List Char :=
  l.take (if m < 0 then ((l.length : ℤ) + m).toNat else m.toNat)

def ellipsis : List Char := ['.', '.', '.']

/-- Body of `truncate_value` at the level of character lists.  `isData` is
the precomputed test `key == "data"`. -/
def truncList (isData : Bool) (l : List Char) (maxLen : ℤ) : List Char :=
  if isData && decide (l.length > 20) then pyTake l 20 ++ ellipsis
  else if decide ((l.length : ℤ) > maxLen) then pyTake l maxLen ++ ellipsis
  else l

/-- The helper `truncate_value(key, value, max_length)` from `format_transaction_blob`:
`data` values clip at 20 characters, everything else at `max_length`, with a
`"..."` marker appended whenever clipping occurs.  The source defaults
`max_length` to 50; call sites here pass it explicitly. -/
def truncate_value (key value : String) (max_length : ℤ) : String :=
  String.mk (truncList (key == "data") value.data max_length)

/-- Variant of `truncate_value` applied to a value of arbitrary runtime type (line 60
of the source passes `action.get('name', ...)` without `str()`): `len` and
slicing work on strings, but on lists/dicts the `+ '...'` or the slice
raises `TypeError`, and unsized values raise `TypeError` at `len`. -/
def truncate_value_dyn (key : String) (v : Value) (max_length : ℤ) : Except String Value :=
  match v with
  | vStr s => .ok (vStr (truncate_value key s max_length))
  | vList xs =>
    if (key == "data" && decide (xs.length > 20)) || decide ((xs.length : ℤ) > max_length)
    then .error "TypeError: can only concatenate list (not str) to list"
    else .ok v
  | vDict es =>
    if (key == "data" && decide (es.length > 20)) || decide ((es.length : ℤ) > max_length)
    then .error "TypeError: unhashable type: slice"
    else .ok v
  | _ => .error "TypeError: object has no len"

/-- The inline `value[:limit] + '...' if len(value) > limit else value`
shortening used for vault names (limits 18 and 16).  Like
`truncate_value_dyn`, only strings survive the slice-and-concatenate when
too long; unsized values raise at `len`. -/
def shorten_dyn (v : Value) (limit : ℕ) : Except String Value :=
  match v with
  | vStr s =>
    .ok (vStr (if s.data.length > limit then String.mk (s.data.take limit) ++ "..." else s))
  | vList xs =>
    if xs.length > limit then .error "TypeError: can only concatenate list (not str) to list"
    else .ok v
  | vDict es =>
    if es.length > limit then .error "TypeError: unhashable type: slice"
    else .ok v
  | _ => .error "TypeError: object has no len"

/-! ## The value formatters shared by the table builders -/

/-- The USD rendering idiom `f"${float(v):.2f}" if v else 'N/A'` used at
three sites (deposit options, positions, balances). -/
def formatUsd (v : Value) : Except String String :=
  if truthy v then
    ebind (pyFloat v) fun q => .ok ("$" ++ formatFixed q 2)
  else .ok "N/A"

/-- The APY rendering idiom `f"{apy * 100:.2f}%" if apy else 'N/A'` used for
deposit options and positions.  Note there is no `float()` coercion here:
a truthy numeric value is scaled and rendered; a truthy non-numeric value
reaches the `:.2f` format spec and raises (`str * 100` is repetition, and
formatting a non-number with code `f` is a `ValueError`/`TypeError`). -/
def formatPercent (v : Value) : Except String String :=
  if truthy v then
    match v with
    | vNum q => .ok (formatFixed (qmul100 q) 2 ++ "%")
    | vBool _ => .ok (formatFixed 100 2 ++ "%")
    | _ => .error "ValueError: unknown format code f for object"
  else .ok "N/A"

/-- The native-balance rendering `f"{float(bn):.6f} {symbol}"` (guarded by
truthiness of `bn` at its call site). -/
def formatNativeQ (bn symbol : Value) : Except String String :=
  ebind (pyFloat bn) fun q => .ok (formatFixed q 6 ++ " " ++ pyStr symbol)

/-! ## The four formatters

Each formatter returns `FmtResult.message` for its literal fallback string,
or `FmtResult.table headers rows` for the rows and headers it hands to the
external `tabulate` renderer.  Rows are stringified at the boundary
(`tabulate` applies `str()` to every cell). -/

inductive FmtResult where
  | message : String → FmtResult
  | table : List String → List (List String) → FmtResult

def balanceHeaders : List String := ["Asset", "Balance", "Balance USD", "Network"]

def depositHeaders : List String :=
  ["Asset", "Balance USD", "Network", "Vault Name", "Protocol", "APY"]

def positionHeaders : List String :=
  ["Network", "Protocol", "Vault Name", "Asset", "Balance USD", "APY"]

/-- Loop body of `format_user_balances` (source lines 162-180): one row per
asset record. -/
def balanceRow (asset : Value) : Except String (List String) :=
  ebind (pyGetD asset "symbol" (vStr "N/A")) fun symbol =>
  ebind (pyGetD asset "balanceNative" vNull) fun bn =>
  ebind (if truthy bn then formatNativeQ bn symbol else .ok "N/A") fun bf =>
  ebind (pyGetD asset "balanceUsd" vNull) fun bu =>
  ebind (formatUsd bu) fun buf =>
  ebind (pyGetD asset "network" (vDict [])) fun nw =>
  ebind (pyGetD nw "name" (vStr "N/A")) fun nn =>
  .ok [pyStr symbol, bf, buf, pyStr nn]

/-- Embedding of `format_user_balances` (source lines 153-182).  The three-way guard
`not idle_assets or not idle_assets.get('data') or not isinstance(..., list)`
is taken in source order; the trailing `has_balances` branch (`'No idle
assets found'`) is kept even though the truthiness guard already rejects an
empty list. -/
def format_user_balances (idle_assets : Value) : Except String FmtResult :=
  if truthy idle_assets then
    ebind (pyGetD idle_assets "data" vNull) fun dataV =>
    if truthy dataV then
      match dataV with
      | vList items =>
        ebind (exMapM balanceRow items) fun rows =>
        if items.isEmpty then .ok (.message "No idle assets found")
        else .ok (.table balanceHeaders rows)
      | _ => .ok (.message "No idle assets available")
    else .ok (.message "No idle assets available")
  else .ok (.message "No idle assets available")

/-- The network cell of a deposit-option row (source line 93):
`option.get('network', {}).get('name', 'N/A')`. -/
def networkNameOfOption (option : Value) : Except String Value :=
  ebind (pyGetD option "network" (vDict [])) fun nw =>
  pyGetD nw "name" (vStr "N/A")

/-- Inner loop body of `format_deposit_options` (source lines 89-110): one
row per (balance entry, deposit option) pair, fields extracted in source
order. -/
def depositRow (balance option : Value) : Except String (List String) :=
  ebind (pyGetD balance "asset" (vDict [])) fun assetD =>
  ebind (pyGetD assetD "symbol" (vStr "N/A")) fun symbol =>
  ebind (pyGetD balance "asset" (vDict [])) fun assetD2 =>
  ebind (pyGetD assetD2 "balanceUsd" vNull) fun bu =>
  ebind (formatUsd bu) fun buf =>
  ebind (networkNameOfOption option) fun nn =>
  ebind (pyGetD option "name" (vStr "N/A")) fun vn =>
  ebind (shorten_dyn vn 18) fun vns =>
  ebind (pyGetD option "protocol" (vDict [])) fun pr =>
  ebind (pyGetD pr "name" (vStr "N/A")) fun prn =>
  ebind (pyGetD option "apy" (vDict [])) fun apyD =>
  ebind (pyGetD apyD "total" vNull) fun apy =>
  ebind (formatPercent apy) fun apyf =>
  .ok [pyStr symbol, buf, pyStr nn, pyStr vns, pyStr prn, apyf]

/-- Embedding of `format_deposit_options` (source lines 79-112): nested iteration over
`userBalances` and each entry's `depositOptions`; note there is no
empty-result message — an empty row list is still rendered as a table. -/
def format_deposit_options (resp : Value) : Except String FmtResult :=
  if truthy resp then
    ebind (pyGetD resp "userBalances" vNull) fun ub =>
    if truthy ub then
      ebind (pyGetD resp "userBalances" (vList [])) fun ub2 =>
      ebind (pyIter ub2) fun balances =>
      ebind (exMapM (fun balance =>
        ebind (pyGetD balance "depositOptions" (vList [])) fun optsV =>
        ebind (pyIter optsV) fun opts =>
        exMapM (depositRow balance) opts) balances) fun rowss =>
      .ok (.table depositHeaders (flat rowss))
    else .ok (.message "No deposit options available")
  else .ok (.message "No deposit options available")

/-- Loop body of `format_positions` (source lines 124-148): one row per
position record, fields extracted in source order. -/
def positionRow (position : Value) : Except String (List String) :=
  ebind (pyGetD position "network" (vDict [])) fun nw =>
  ebind (pyGetD nw "name" (vStr "N/A")) fun nn =>
  ebind (pyGetD position "protocol" (vDict [])) fun pr =>
  ebind (pyGetD pr "name" (vStr "N/A")) fun prn =>
  ebind (pyGetD position "name" (vStr "Unknown Vault")) fun vn =>
  ebind (shorten_dyn vn 16) fun vns =>
  ebind (pyGetD position "asset" (vDict [])) fun assetD =>
  ebind (pyGetD assetD "symbol" (vStr "N/A")) fun symbol =>
  ebind (pyGetD position "asset" (vDict [])) fun assetD2 =>
  ebind (pyGetD assetD2 "balanceUsd" vNull) fun bu =>
  ebind (formatUsd bu) fun buf =>
  ebind (pyGetD position "apy" (vDict [])) fun apyD =>
  ebind (pyGetD apyD "total" vNull) fun apy =>
  ebind (formatPercent apy) fun apyf =>
  .ok [pyStr nn, pyStr prn, pyStr vns, pyStr symbol, buf, apyf]

/-- Embedding of `format_positions` (source lines 115-150), same guard shape as
`format_user_balances` including the dead `has_positions` branch. -/
def format_positions (positions : Value) : Except String FmtResult :=
  if truthy positions then
    ebind (pyGetD positions "data" vNull) fun dataV =>
    if truthy dataV then
      match dataV with
      | vList items =>
        ebind (exMapM positionRow items) fun rows =>
        if items.isEmpty then .ok (.message "No active positions found")
        else .ok (.table positionHeaders rows)
      | _ => .ok (.message "No positions available")
    else .ok (.message "No positions available")
  else .ok (.message "No positions available")

/-! ## Transaction blob formatter -/

/-- Basic-property rows of `format_transaction_blob` (source lines 41-48):
the reserved key `actions` is skipped; null or empty-string values render as
`N/A`; everything else is stringified and truncated. -/
def blobBaseRow (kv : String × Value) : List (List String) :=
  if kv.1 == "actions" then []
  else if (match kv.2 with | vNull => true | vStr s => s.isEmpty | _ => false)
  then [[kv.1, "N/A"]]
  else [[kv.1, truncate_value kv.1 (pyStr kv.2) 50]]

def baseRows (entries : List (String × Value)) : List (List String) :=
  flat (entries.map blobBaseRow)

/-- Rows contributed by the action at (0-based) position `i`, without the
inter-action spacer (source lines 57-67 and 72-74): a dict action gets a
header row with its (truncated) name followed by one indented row per `tx`
field; a non-dict action gets a single stringified row. -/
def renderActionCore (i : ℕ) (a : Value) : Except String (List (List String)) :=
  match a with
  | vDict es =>
    ebind (truncate_value_dyn "name"
        ((dlookup es "name").getD (vStr ("Action " ++ toString (i + 1)))) 60) fun tn =>
    match (dlookup es "tx").getD (vDict []) with
    | vDict txs =>
      .ok (["Action " ++ toString (i + 1), pyStr tn] ::
        txs.map (fun kv => ["  " ++ kv.1, truncate_value kv.1 (pyStr kv.2) 50]))
    | _ => .error "AttributeError: object has no attribute items"
  | a => .ok [["Action " ++ toString (i + 1), truncate_value "action" (pyStr a) 50]]

/-- The `enumerate` loop over actions (source lines 56-74): after a
dict-shaped action that is not in last position (`i < len(actions) - 1`) a
blank spacer row is appended; the non-dict branch has no spacer. -/
def actionRowsLoop (total : ℕ) : ℕ → List Value → Except String (List (List String))
  | _, [] => .ok []
  | i, a :: rest =>
    ebind (renderActionCore i a) fun r =>
    ebind (actionRowsLoop total (i + 1) rest) fun rs =>
    .ok (r ++ (if isDictV a && decide (i < total - 1) then [["", ""]] else []) ++ rs)

/-- Embedding of `format_transaction_blob` (source lines 24-76) up to the banner line and
the `tabulate` call: falsy or non-dict input yields the fallback message;
otherwise the basic-property rows, then (when `actions` is a list) a spacer,
a Total Actions row, a spacer, and the per-action rows. -/
def format_transaction_blob (transaction : Value) : Except String FmtResult :=
  match transaction with
  | vDict entries =>
    if truthy (vDict entries) then
      ebind (match dlookup entries "actions" with
        | some (vList acts) =>
          ebind (actionRowsLoop acts.length 0 acts) fun ar =>
          .ok ([["", ""], ["Total Actions", toString acts.length], ["", ""]] ++ ar)
        | _ => .ok []) fun actRows =>
      .ok (.table ["Property", "Value"] (baseRows entries ++ actRows))
    else .ok (.message "No transaction data available")
  | _ => .ok (.message "No transaction data available")

/-- Declarative restatement of the inter-action spacer rule, used to compare
with the `i < total - 1` loop: a spacer follows each dict-shaped action
except the one in last position; non-dict actions are never followed by a
spacer. -/
def renderActionsDecl : ℕ → List Value → Except String (List (List String))
  | _, [] => .ok []
  | i, [a] => renderActionCore i a
  | i, a :: b :: rest =>
    ebind (renderActionCore i a) fun r =>
    ebind (renderActionsDecl (i + 1) (b :: rest)) fun rs =>
    .ok (r ++ (if isDictV a then [["", ""]] else []) ++ rs)

/-! ## Workflow driver: deposit-option selection (source lines 278-284) -/

/-- The transaction-generation gate of `run_example_implementation`:
`user_balances = top_options.get('userBalances', []) if top_options else []`,
then if the first balance entry exists and has at least three deposit
options, the option at fixed index 2 is selected (`Use 3rd vault (index 2)`
in the source); `none` means the driver prints a fallback instead. -/
def selectThirdOption (top_options : Value) : Except String (Option Value) :=
  ebind (if truthy top_options then pyGetD top_options "userBalances" (vList [])
         else .ok (vList [])) fun ub =>
  if truthy ub then
    ebind (pyLen ub) fun n =>
    if n > 0 then
      ebind (pyIndex ub 0) fun first_asset =>
      ebind (pyGetD first_asset "depositOptions" (vList [])) fun optsV =>
      ebind (pyLen optsV) fun m =>
      if m ≥ 3 then
        ebind (pyIndex optsV 2) fun third => .ok (some third)
      else .ok none
    else .ok none
  else .ok none

/-- The `depositOptions` list of a balance entry as the formatter sees it
(present list, or empty when absent); total on well-formed entries. -/
def optsOf (b : Value) : List Value :=
  match b with
  | vDict es =>
    match dlookup es "depositOptions" with
    | some (vList xs) => xs
    | _ => []
  | _ => []

/-! ## Well-typedness of payloads

These predicates delimit inputs on which the formatters provably cannot
raise: every field, **when present**, has the type the happy path of the
source expects (nested records are dicts, element lists are lists, numeric
fields are numbers / numeric strings / falsy, name fields are strings).
Missing fields are always allowed — the formatters substitute defaults for
those. -/

/-- Falsy (skipped by the truthiness guard) or accepted by `float()`. -/
def floatableIfTruthy (v : Value) : Bool := !truthy v || exOk (pyFloat v)

/-- Falsy or of a type the `f"{apy * 100:.2f}%"` idiom can format. -/
def percentOk (v : Value) : Bool :=
  !truthy v || (match v with | vNum _ => true | vBool _ => true | _ => false)

def dictIfSome : Option Value → Bool
  | none => true
  | some v => isDictV v

def strOrAbsent : Option Value → Bool
  | none => true
  | some (vStr _) => true
  | some _ => false

def wfAsset : Value → Bool
  | vDict es =>
    floatableIfTruthy (lookD es "balanceNative") &&
    floatableIfTruthy (lookD es "balanceUsd") &&
    dictIfSome (dlookup es "network")
  | _ => false

def wfBalances : Value → Bool
  | vDict es =>
    match dlookup es "data" with
    | some (vList items) => items.all wfAsset
    | _ => true
  | v => !truthy v

def wfOption : Value → Bool
  | vDict es =>
    dictIfSome (dlookup es "network") &&
    strOrAbsent (dlookup es "name") &&
    dictIfSome (dlookup es "protocol") &&
    (match dlookup es "apy" with
      | none => true
      | some (vDict aes) => percentOk (lookD aes "total")
      | some _ => false)
  | _ => false

def wfBalanceEntry : Value → Bool
  | vDict es =>
    (match dlookup es "asset" with
      | none => true
      | some (vDict aes) => floatableIfTruthy (lookD aes "balanceUsd")
      | some _ => false) &&
    (match dlookup es "depositOptions" with
      | none => true
      | some (vList opts) => opts.all wfOption
      | some _ => false)
  | _ => false

def wfDepositOptions : Value → Bool
  | vDict es =>
    match dlookup es "userBalances" with
    | none => true
    | some (vList ubs) => ubs.all wfBalanceEntry
    | some v => !truthy v
  | v => !truthy v

def wfPosition : Value → Bool
  | vDict es =>
    dictIfSome (dlookup es "network") &&
    dictIfSome (dlookup es "protocol") &&
    strOrAbsent (dlookup es "name") &&
    (match dlookup es "asset" with
      | none => true
      | some (vDict aes) => floatableIfTruthy (lookD aes "balanceUsd")
      | some _ => false) &&
    (match dlookup es "apy" with
      | none => true
      | some (vDict aes) => percentOk (lookD aes "total")
      | some _ => false)
  | _ => false

def wfPositions : Value → Bool
  | vDict es =>
    match dlookup es "data" with
    | some (vList items) => items.all wfPosition
    | _ => true
  | v => !truthy v

def wfAction : Value → Bool
  | vDict es => strOrAbsent (dlookup es "name") && dictIfSome (dlookup es "tx")
  | _ => true

def wfBlob : Value → Bool
  | vDict es =>
    match dlookup es "actions" with
    | some (vList acts) => acts.all wfAction
    | _ => true
  | _ => true

/-! ## Totality lemmas on well-typed payloads -/

theorem formatUsd_ok {v : Value} (h : floatableIfTruthy v = true) :
    exOk (formatUsd v) = true := by
  unfold floatableIfTruthy at h
  unfold formatUsd
  cases ht : truthy v with
  | false => simp [ht]
  | true =>
    rw [ht] at h
    simp only [Bool.not_true, Bool.false_or] at h
    obtain ⟨q, hq⟩ := exOk_exists h
    simp [ht, hq]

theorem formatPercent_ok {v : Value} (h : percentOk v = true) :
    exOk (formatPercent v) = true := by
  unfold percentOk at h
  unfold formatPercent
  cases ht : truthy v with
  | false => simp [ht]
  | true =>
    rw [ht] at h
    simp only [Bool.not_true, Bool.false_or] at h
    cases v with
    | vNum q => simp [ht]
    | vBool b => simp [ht]
    | vNull => simp at h
    | vStr s => simp at h
    | vList xs => simp at h
    | vDict es => simp at h

theorem formatNativeQ_ok {bn : Value} (symbol : Value)
    (h : floatableIfTruthy bn = true) (ht : truthy bn = true) :
    exOk (formatNativeQ bn symbol) = true := by
  unfold floatableIfTruthy at h
  rw [ht] at h
  simp only [Bool.not_true, Bool.false_or] at h
  obtain ⟨q, hq⟩ := exOk_exists h
  simp [formatNativeQ, hq]

theorem shorten_dyn_str_ok (s : String) (n : ℕ) : exOk (shorten_dyn (vStr s) n) = true := rfl

theorem balanceRow_ok {a : Value} (h : wfAsset a = true) : exOk (balanceRow a) = true := by
  cases a with
  | vDict es =>
    simp only [wfAsset, Bool.and_eq_true] at h
    obtain ⟨⟨h1, h2⟩, h3⟩ := h
    unfold balanceRow
    simp only [pyGetD, ebind_ok]
    have hbn : exOk (if truthy (lookD es "balanceNative") then
        formatNativeQ (lookD es "balanceNative") ((dlookup es "symbol").getD (vStr "N/A"))
        else .ok "N/A") = true := by
      cases ht : truthy (lookD es "balanceNative") with
      | false => simp
      | true => simpa using formatNativeQ_ok _ h1 ht
    obtain ⟨bf, hbf⟩ := exOk_exists hbn
    have hbu := formatUsd_ok h2
    obtain ⟨buf, hbuf⟩ := exOk_exists hbu
    rw [show (dlookup es "balanceNative").getD vNull = lookD es "balanceNative" from rfl]
    rw [show (dlookup es "balanceUsd").getD vNull = lookD es "balanceUsd" from rfl]
    rw [hbf, hbuf]
    simp only [ebind_ok]
    cases hnw : dlookup es "network" with
    | none => simp [hnw, pyGetD]
    | some nw =>
      rw [hnw] at h3
      cases nw with
      | vDict nes => simp [hnw, pyGetD]
      | vNull => simp [dictIfSome, isDictV] at h3
      | vBool b => simp [dictIfSome, isDictV] at h3
      | vNum q => simp [dictIfSome, isDictV] at h3
      | vStr s => simp [dictIfSome, isDictV] at h3
      | vList xs => simp [dictIfSome, isDictV] at h3
  | vNull => simp [wfAsset] at h
  | vBool b => simp [wfAsset] at h
  | vNum q => simp [wfAsset] at h
  | vStr s => simp [wfAsset] at h
  | vList xs => simp [wfAsset] at h

@[simp] theorem pyGetD_dict (es : List (String × Value)) (k : String) (d : Value) :
    pyGetD (vDict es) k d = .ok ((dlookup es k).getD d) := rfl

@[simp] theorem pyIter_list (xs : List Value) : pyIter (vList xs) = .ok xs := rfl

theorem getD_dict_of_dictIfSome {o : Option Value} (h : dictIfSome o = true)
    (d : List (String × Value)) : ∃ es, o.getD (vDict d) = vDict es := by
  cases o with
  | none => exact ⟨d, rfl⟩
  | some v =>
    cases v with
    | vDict es => exact ⟨es, rfl⟩
    | vNull => simp [dictIfSome, isDictV] at h
    | vBool b => simp [dictIfSome, isDictV] at h
    | vNum q => simp [dictIfSome, isDictV] at h
    | vStr s => simp [dictIfSome, isDictV] at h
    | vList xs => simp [dictIfSome, isDictV] at h

theorem getD_str_of_strOrAbsent {o : Option Value} (h : strOrAbsent o = true)
    (d : String) : ∃ s, o.getD (vStr d) = vStr s := by
  cases o with
  | none => exact ⟨d, rfl⟩
  | some v =>
    cases v with
    | vStr s => exact ⟨s, rfl⟩
    | vNull => simp [strOrAbsent] at h
    | vBool b => simp [strOrAbsent] at h
    | vNum q => simp [strOrAbsent] at h
    | vList xs => simp [strOrAbsent] at h
    | vDict es => simp [strOrAbsent] at h

/-- The asset-side and option-side hypotheses make one deposit-option row
(lines 89-110 of the source) succeed. -/
theorem depositRow_ok {b o : Value} (hb : wfBalanceEntry b = true)
    (ho : wfOption o = true) : exOk (depositRow b o) = true := by
  cases b with
  | vDict bes =>
    cases o with
    | vDict oes =>
      simp only [wfBalanceEntry, Bool.and_eq_true] at hb
      obtain ⟨hba, _⟩ := hb
      simp only [wfOption, Bool.and_eq_true] at ho
      obtain ⟨⟨⟨hnw, hnm⟩, hpr⟩, hapy⟩ := ho
      have hbaD : dictIfSome (dlookup bes "asset") = true := by
        cases ha : dlookup bes "asset" with
        | none => rfl
        | some av => rw [ha] at hba; cases av <;> simp_all [dictIfSome, isDictV]
      obtain ⟨aes1, haes1⟩ := getD_dict_of_dictIfSome hbaD []
      have hfl : floatableIfTruthy ((dlookup aes1 "balanceUsd").getD vNull) = true := by
        cases ha : dlookup bes "asset" with
        | none =>
          rw [ha] at haes1
          simp only [Option.getD_none, vDict.injEq] at haes1
          subst haes1
          rfl
        | some av =>
          rw [ha] at hba haes1
          cases av with
          | vDict aes =>
            simp only [Option.getD_some, vDict.injEq] at haes1
            subst haes1
            exact hba
          | vNull => simp at hba
          | vBool x => simp at hba
          | vNum x => simp at hba
          | vStr x => simp at hba
          | vList x => simp at hba
      have hapyD : dictIfSome (dlookup oes "apy") = true := by
        cases ha : dlookup oes "apy" with
        | none => rfl
        | some av => rw [ha] at hapy; cases av <;> simp_all [dictIfSome, isDictV]
      obtain ⟨qes, hqes⟩ := getD_dict_of_dictIfSome hapyD []
      have hpc : percentOk ((dlookup qes "total").getD vNull) = true := by
        cases ha : dlookup oes "apy" with
        | none =>
          rw [ha] at hqes
          simp only [Option.getD_none, vDict.injEq] at hqes
          subst hqes
          rfl
        | some av =>
          rw [ha] at hapy hqes
          cases av with
          | vDict aes =>
            simp only [Option.getD_some, vDict.injEq] at hqes
            subst hqes
            exact hapy
          | vNull => simp at hapy
          | vBool x => simp at hapy
          | vNum x => simp at hapy
          | vStr x => simp at hapy
          | vList x => simp at hapy
      unfold depositRow
      simp only [pyGetD_dict, ebind_ok]
      rw [haes1]
      simp only [pyGetD_dict, ebind_ok]
      obtain ⟨buf, hbuf⟩ := exOk_exists (formatUsd_ok hfl)
      rw [hbuf]
      simp only [ebind_ok]
      obtain ⟨nes, hnes⟩ := getD_dict_of_dictIfSome hnw []
      have hnn : networkNameOfOption (vDict oes) = .ok ((dlookup nes "name").getD (vStr "N/A")) := by
        unfold networkNameOfOption
        simp only [pyGetD_dict, ebind_ok, hnes]
      rw [hnn]
      simp only [ebind_ok]
      obtain ⟨vs, hvs⟩ := getD_str_of_strOrAbsent hnm "N/A"
      rw [hvs]
      simp only [shorten_dyn, ebind_ok]
      obtain ⟨pes, hpes⟩ := getD_dict_of_dictIfSome hpr []
      rw [hpes]
      simp only [pyGetD_dict, ebind_ok]
      rw [hqes]
      simp only [pyGetD_dict, ebind_ok]
      obtain ⟨apyf, hapyf⟩ := exOk_exists (formatPercent_ok hpc)
      rw [hapyf]
      simp only [ebind_ok, exOk]
    | vNull => simp [wfOption] at ho
    | vBool x => simp [wfOption] at ho
    | vNum x => simp [wfOption] at ho
    | vStr x => simp [wfOption] at ho
    | vList x => simp [wfOption] at ho
  | vNull => simp [wfBalanceEntry] at hb
  | vBool x => simp [wfBalanceEntry] at hb
  | vNum x => simp [wfBalanceEntry] at hb
  | vStr x => simp [wfBalanceEntry] at hb
  | vList x => simp [wfBalanceEntry] at hb

theorem positionRow_ok {p : Value} (h : wfPosition p = true) : exOk (positionRow p) = true := by
  cases p with
  | vDict es =>
    simp only [wfPosition, Bool.and_eq_true] at h
    obtain ⟨⟨⟨⟨hnw, hpr⟩, hnm⟩, hass⟩, hapy⟩ := h
    have hassD : dictIfSome (dlookup es "asset") = true := by
      cases ha : dlookup es "asset" with
      | none => rfl
      | some av => rw [ha] at hass; cases av <;> simp_all [dictIfSome, isDictV]
    obtain ⟨aes1, haes1⟩ := getD_dict_of_dictIfSome hassD []
    have hfl : floatableIfTruthy ((dlookup aes1 "balanceUsd").getD vNull) = true := by
      cases ha : dlookup es "asset" with
      | none =>
        rw [ha] at haes1
        simp only [Option.getD_none, vDict.injEq] at haes1
        subst haes1
        rfl
      | some av =>
        rw [ha] at hass haes1
        cases av with
        | vDict aes =>
          simp only [Option.getD_some, vDict.injEq] at haes1
          subst haes1
          exact hass
        | vNull => simp at hass
        | vBool x => simp at hass
        | vNum x => simp at hass
        | vStr x => simp at hass
        | vList x => simp at hass
    have hapyD : dictIfSome (dlookup es "apy") = true := by
      cases ha : dlookup es "apy" with
      | none => rfl
      | some av => rw [ha] at hapy; cases av <;> simp_all [dictIfSome, isDictV]
    obtain ⟨qes, hqes⟩ := getD_dict_of_dictIfSome hapyD []
    have hpc : percentOk ((dlookup qes "total").getD vNull) = true := by
      cases ha : dlookup es "apy" with
      | none =>
        rw [ha] at hqes
        simp only [Option.getD_none, vDict.injEq] at hqes
        subst hqes
        rfl
      | some av =>
        rw [ha] at hapy hqes
        cases av with
        | vDict aes =>
          simp only [Option.getD_some, vDict.injEq] at hqes
          subst hqes
          exact hapy
        | vNull => simp at hapy
        | vBool x => simp at hapy
        | vNum x => simp at hapy
        | vStr x => simp at hapy
        | vList x => simp at hapy
    unfold positionRow
    simp only [pyGetD_dict, ebind_ok]
    obtain ⟨nes, hnes⟩ := getD_dict_of_dictIfSome hnw []
    rw [hnes]
    simp only [pyGetD_dict, ebind_ok]
    obtain ⟨pes, hpes⟩ := getD_dict_of_dictIfSome hpr []
    rw [hpes]
    simp only [pyGetD_dict, ebind_ok]
    obtain ⟨vs, hvs⟩ := getD_str_of_strOrAbsent hnm "Unknown Vault"
    rw [hvs]
    simp only [shorten_dyn, ebind_ok]
    rw [haes1]
    simp only [pyGetD_dict, ebind_ok]
    obtain ⟨buf, hbuf⟩ := exOk_exists (formatUsd_ok hfl)
    rw [hbuf]
    simp only [ebind_ok]
    rw [hqes]
    simp only [pyGetD_dict, ebind_ok]
    obtain ⟨apyf, hapyf⟩ := exOk_exists (formatPercent_ok hpc)
    rw [hapyf]
    simp only [ebind_ok, exOk]
  | vNull => simp [wfPosition] at h
  | vBool x => simp [wfPosition] at h
  | vNum x => simp [wfPosition] at h
  | vStr x => simp [wfPosition] at h
  | vList x => simp [wfPosition] at h

theorem renderActionCore_ok {a : Value} (i : ℕ) (h : wfAction a = true) :
    exOk (renderActionCore i a) = true := by
  cases a with
  | vDict es =>
    simp only [wfAction, Bool.and_eq_true] at h
    obtain ⟨hnm, htx⟩ := h
    simp only [renderActionCore]
    obtain ⟨ns, hns⟩ := getD_str_of_strOrAbsent hnm ("Action " ++ toString (i + 1))
    rw [hns]
    simp only [truncate_value_dyn, ebind_ok]
    obtain ⟨tes, htes⟩ := getD_dict_of_dictIfSome htx []
    rw [htes]
    rfl
  | vNull => rfl
  | vBool b => rfl
  | vNum q => rfl
  | vStr s => rfl
  | vList xs => rfl

theorem actionRowsLoop_ok {acts : List Value} (total : ℕ) :
    ∀ i, acts.all wfAction = true → exOk (actionRowsLoop total i acts) = true := by
  induction acts with
  | nil => intro i _; rfl
  | cons a rest ih =>
    intro i h
    simp only [List.all_cons, Bool.and_eq_true] at h
    obtain ⟨ha, hrest⟩ := h
    obtain ⟨r, hr⟩ := exOk_exists (renderActionCore_ok i ha)
    obtain ⟨rs, hrs⟩ := exOk_exists (ih (i + 1) hrest)
    simp [actionRowsLoop, hr, hrs]

theorem format_user_balances_ok {v : Value} (h : wfBalances v = true) :
    exOk (format_user_balances v) = true := by
  cases v with
  | vDict es =>
    unfold format_user_balances
    cases htr : truthy (vDict es) with
    | false => simp
    | true =>
      simp only [pyGetD_dict, ebind_ok, if_true]
      cases hd : dlookup es "data" with
      | none => simp [truthy]
      | some dv =>
        simp only [Option.getD_some]
        cases dv with
        | vList items =>
          simp only [wfBalances, hd] at h
          cases htr2 : truthy (vList items) with
          | false => simp [htr2]
          | true =>
            have hall : ∀ x ∈ items, exOk (balanceRow x) = true := by
              intro x hx
              exact balanceRow_ok (by
                have := List.all_eq_true.mp h x hx
                simpa using this)
            obtain ⟨rows, hrows⟩ := exOk_exists (exMapM_ok hall)
            simp only [htr2, if_true, hrows, ebind_ok]
            cases items.isEmpty <;> rfl
        | vNull => simp [truthy]
        | vBool b => cases b <;> simp [truthy]
        | vNum q =>
          cases htq : truthy (vNum q) with
          | false => simp [htq]
          | true => simp [htq]
        | vStr s =>
          cases hts : truthy (vStr s) with
          | false => simp [hts]
          | true => simp [hts]
        | vDict des =>
          cases htd : truthy (vDict des) with
          | false => simp [htd]
          | true => simp [htd]
  | vNull => rfl
  | vBool b =>
    simp only [wfBalances] at h
    unfold format_user_balances
    rw [show truthy (vBool b) = false by simpa using h]
    rfl
  | vNum q =>
    simp only [wfBalances] at h
    unfold format_user_balances
    rw [show truthy (vNum q) = false by simpa using h]
    rfl
  | vStr s =>
    simp only [wfBalances] at h
    unfold format_user_balances
    rw [show truthy (vStr s) = false by simpa using h]
    rfl
  | vList xs =>
    simp only [wfBalances] at h
    unfold format_user_balances
    rw [show truthy (vList xs) = false by simpa using h]
    rfl

theorem format_positions_ok {v : Value} (h : wfPositions v = true) :
    exOk (format_positions v) = true := by
  cases v with
  | vDict es =>
    unfold format_positions
    cases htr : truthy (vDict es) with
    | false => simp
    | true =>
      simp only [pyGetD_dict, ebind_ok, if_true]
      cases hd : dlookup es "data" with
      | none => simp [truthy]
      | some dv =>
        simp only [Option.getD_some]
        cases dv with
        | vList items =>
          simp only [wfPositions, hd] at h
          cases htr2 : truthy (vList items) with
          | false => simp [htr2]
          | true =>
            have hall : ∀ x ∈ items, exOk (positionRow x) = true := by
              intro x hx
              exact positionRow_ok (by
                have := List.all_eq_true.mp h x hx
                simpa using this)
            obtain ⟨rows, hrows⟩ := exOk_exists (exMapM_ok hall)
            simp only [htr2, if_true, hrows, ebind_ok]
            cases items.isEmpty <;> rfl
        | vNull => simp [truthy]
        | vBool b => cases b <;> simp [truthy]
        | vNum q =>
          cases htq : truthy (vNum q) with
          | false => simp [htq]
          | true => simp [htq]
        | vStr s =>
          cases hts : truthy (vStr s) with
          | false => simp [hts]
          | true => simp [hts]
        | vDict des =>
          cases htd : truthy (vDict des) with
          | false => simp [htd]
          | true => simp [htd]
  | vNull => rfl
  | vBool b =>
    simp only [wfPositions] at h
    unfold format_positions
    rw [show truthy (vBool b) = false by simpa using h]
    rfl
  | vNum q =>
    simp only [wfPositions] at h
    unfold format_positions
    rw [show truthy (vNum q) = false by simpa using h]
    rfl
  | vStr s =>
    simp only [wfPositions] at h
    unfold format_positions
    rw [show truthy (vStr s) = false by simpa using h]
    rfl
  | vList xs =>
    simp only [wfPositions] at h
    unfold format_positions
    rw [show truthy (vList xs) = false by simpa using h]
    rfl

/-- One balance entry of `format_deposit_options`: collecting rows over its
(possibly absent) `depositOptions` list succeeds on a well-typed entry. -/
theorem depositEntryRows_ok {b : Value} (h : wfBalanceEntry b = true) :
    exOk (ebind (pyGetD b "depositOptions" (vList [])) fun optsV =>
      ebind (pyIter optsV) fun opts =>
      exMapM (depositRow b) opts) = true := by
  cases b with
  | vDict bes =>
    simp only [pyGetD_dict, ebind_ok]
    have hopts := (Bool.and_eq_true _ _ |>.mp (by simpa only [wfBalanceEntry] using h)).2
    cases hd : dlookup bes "depositOptions" with
    | none => simp [pyIter, exMapM]
    | some dv =>
      rw [hd] at hopts
      cases dv with
      | vList opts =>
        simp only [Option.getD_some, pyIter, ebind_ok]
        exact exMapM_ok (fun o ho => depositRow_ok h (by
          have := List.all_eq_true.mp hopts o ho
          simpa using this))
      | vNull => simp at hopts
      | vBool x => simp at hopts
      | vNum x => simp at hopts
      | vStr x => simp at hopts
      | vDict x => simp at hopts
  | vNull => simp [wfBalanceEntry] at h
  | vBool x => simp [wfBalanceEntry] at h
  | vNum x => simp [wfBalanceEntry] at h
  | vStr x => simp [wfBalanceEntry] at h
  | vList x => simp [wfBalanceEntry] at h

theorem format_deposit_options_ok {v : Value} (h : wfDepositOptions v = true) :
    exOk (format_deposit_options v) = true := by
  cases v with
  | vDict es =>
    unfold format_deposit_options
    cases htr : truthy (vDict es) with
    | false => simp
    | true =>
      simp only [pyGetD_dict, ebind_ok, if_true]
      cases hd : dlookup es "userBalances" with
      | none => simp [truthy]
      | some dv =>
        simp only [Option.getD_some]
        cases dv with
        | vList ubs =>
          simp only [wfDepositOptions, hd] at h
          cases htr2 : truthy (vList ubs) with
          | false => simp [htr2]
          | true =>
            have hall : ∀ b ∈ ubs,
                exOk (ebind (pyGetD b "depositOptions" (vList [])) fun optsV =>
                  ebind (pyIter optsV) fun opts =>
                  exMapM (depositRow b) opts) = true := by
              intro b hb
              exact depositEntryRows_ok (by
                have := List.all_eq_true.mp h b hb
                simpa using this)
            obtain ⟨rowss, hrowss⟩ := exOk_exists (exMapM_ok hall)
            simp only [htr2, if_true, pyGetD_dict, ebind_ok, hd, Option.getD_some,
              pyIter_list, hrowss]
            rfl
        | vNull => simp [truthy]
        | vBool b =>
          simp only [wfDepositOptions, hd] at h
          rw [show truthy (vBool b) = false by simpa using h]
          simp
        | vNum q =>
          simp only [wfDepositOptions, hd] at h
          rw [show truthy (vNum q) = false by simpa using h]
          simp
        | vStr s =>
          simp only [wfDepositOptions, hd] at h
          rw [show truthy (vStr s) = false by simpa using h]
          simp
        | vDict des =>
          simp only [wfDepositOptions, hd] at h
          rw [show truthy (vDict des) = false by simpa using h]
          simp
  | vNull => rfl
  | vBool b =>
    simp only [wfDepositOptions] at h
    unfold format_deposit_options
    rw [show truthy (vBool b) = false by simpa using h]
    rfl
  | vNum q =>
    simp only [wfDepositOptions] at h
    unfold format_deposit_options
    rw [show truthy (vNum q) = false by simpa using h]
    rfl
  | vStr s =>
    simp only [wfDepositOptions] at h
    unfold format_deposit_options
    rw [show truthy (vStr s) = false by simpa using h]
    rfl
  | vList xs =>
    simp only [wfDepositOptions] at h
    unfold format_deposit_options
    rw [show truthy (vList xs) = false by simpa using h]
    rfl

theorem format_transaction_blob_ok {v : Value} (h : wfBlob v = true) :
    exOk (format_transaction_blob v) = true := by
  cases v with
  | vDict es =>
    simp only [format_transaction_blob]
    cases htr : truthy (vDict es) with
    | false => simp
    | true =>
      simp only [if_true]
      cases hd : dlookup es "actions" with
      | none => rfl
      | some dv =>
        cases dv with
        | vList acts =>
          simp only [wfBlob, hd] at h
          obtain ⟨ar, har⟩ := exOk_exists (actionRowsLoop_ok acts.length 0 h)
          simp [har]
        | vNull => rfl
        | vBool b => rfl
        | vNum q => rfl
        | vStr s => rfl
        | vDict x => rfl
  | vNull => rfl
  | vBool b => rfl
  | vNum q => rfl
  | vStr s => rfl
  | vList xs => rfl

theorem take_len_append (l₁ l₂ : List α) : (l₁ ++ l₂).take l₁.length = l₁ := by
  induction l₁ with
  | nil => rfl
  | cons x xs ih => simp [ih]

theorem truncList_idem (b : Bool) (l : List Char) (m : ℤ) (h0 : 0 ≤ m)
    (hdta : b = true → 20 ≤ m) :
    truncList b (truncList b l m) m = truncList b l m := by
  have hnneg : ¬ m < 0 := not_lt.mpr h0
  cases b with
  | true =>
    have hm : 20 ≤ m := hdta rfl
    by_cases h20 : l.length > 20
    · have htake20 : (l.take 20).length = 20 := by
        rw [List.length_take]; omega
      have hout : truncList true l m = l.take 20 ++ ellipsis := by
        simp [truncList, h20, pyTake]
      rw [hout]
      have hlen : (l.take 20 ++ ellipsis).length = 23 := by
        rw [List.length_append, htake20]; rfl
      have hc : (true && decide ((l.take 20 ++ ellipsis).length > 20)) = true := by
        rw [hlen]; rfl
      simp only [truncList, hc, if_true]
      have htla := take_len_append (l.take 20) ellipsis
      rw [htake20] at htla
      rw [show pyTake (l.take 20 ++ ellipsis) 20 = (l.take 20 ++ ellipsis).take 20 from rfl]
      rw [htla]
    · have hc2 : ¬ ((l.length : ℤ) > m) := by omega
      have hout : truncList true l m = l := by
        simp [truncList, h20, hc2]
      rw [hout]
      exact hout
  | false =>
    by_cases hlm : (l.length : ℤ) > m
    · have htm : m.toNat ≤ l.length := by omega
      have htakem : (l.take m.toNat).length = m.toNat := by
        rw [List.length_take]; omega
      have hout : truncList false l m = l.take m.toNat ++ ellipsis := by
        simp only [truncList, Bool.false_and, Bool.false_eq_true, if_false]
        rw [if_pos (by simpa using hlm)]
        simp [pyTake, hnneg]
      rw [hout]
      have hlen : (l.take m.toNat ++ ellipsis).length = m.toNat + 3 := by
        rw [List.length_append, htakem]; rfl
      simp only [truncList, Bool.false_and, Bool.false_eq_true, if_false]
      rw [if_pos (by rw [hlen]; simp; omega)]
      have htla := take_len_append (l.take m.toNat) ellipsis
      rw [htakem] at htla
      rw [show pyTake (l.take m.toNat ++ ellipsis) m = (l.take m.toNat ++ ellipsis).take m.toNat from by simp [pyTake, hnneg]]
      rw [htla]
    · have hout : truncList false l m = l := by
        simp only [truncList, Bool.false_and, Bool.false_eq_true, if_false]
        rw [if_neg (by simpa using hlm)]
      rw [hout]
      exact hout

/-- The `enumerate`-style loop with its `i < len - 1` spacer test agrees
with the declarative "spacer after every non-last dict action" reading. -/
theorem actionRowsLoop_eq_decl (total : ℕ) :
    ∀ (rest : List Value) (i : ℕ), i + rest.length = total →
      actionRowsLoop total i rest = renderActionsDecl i rest := by
  intro rest
  induction rest with
  | nil => intro i _; rfl
  | cons a rest' ih =>
    intro i h
    cases rest' with
    | nil =>
      have hlt : ¬ (i < total - 1) := by simp at h; omega
      have hnd : decide (i < total - 1) = false := by simp [hlt]
      simp only [actionRowsLoop, renderActionsDecl]
      cases hca : renderActionCore i a with
      | error e => simp
      | ok r => simp [hnd]
    | cons c rest'' =>
      have hlt : i < total - 1 := by simp at h; omega
      have hd : decide (i < total - 1) = true := decide_eq_true hlt
      have ih' := ih (i + 1) (by simp at h ⊢; omega)
      rw [actionRowsLoop, renderActionsDecl, ih']
      cases hca : renderActionCore i a with
      | error e => rfl
      | ok r =>
        cases hcd : renderActionsDecl (i + 1) (c :: rest'') with
        | error e => simp
        | ok rs => simp [hd]

/-- Well-typed balance entries produce exactly one block of rows each, of
size equal to their `depositOptions` count. -/
theorem depositRows_lengths {ubs : List Value} (h : ubs.all wfBalanceEntry = true) :
    ∃ rowss, exMapM (fun balance =>
        ebind (pyGetD balance "depositOptions" (vList [])) fun optsV =>
        ebind (pyIter optsV) fun opts =>
        exMapM (depositRow balance) opts) ubs = .ok rowss
      ∧ rowss.map List.length = ubs.map (fun b => (optsOf b).length) := by
  induction ubs with
  | nil => exact ⟨[], rfl, rfl⟩
  | cons b rest ih =>
    simp only [List.all_cons, Bool.and_eq_true] at h
    obtain ⟨hb, hrest⟩ := h
    obtain ⟨rowss, hr, hlen⟩ := ih hrest
    have hhead : ∃ rowsb, (ebind (pyGetD b "depositOptions" (vList [])) fun optsV =>
        ebind (pyIter optsV) fun opts =>
        exMapM (depositRow b) opts) = .ok rowsb ∧ rowsb.length = (optsOf b).length := by
      cases b with
      | vDict bes =>
        have hopts := (Bool.and_eq_true _ _ |>.mp (by simpa only [wfBalanceEntry] using hb)).2
        cases hd : dlookup bes "depositOptions" with
        | none => exact ⟨[], by simp [hd, exMapM], by simp [optsOf, hd]⟩
        | some dv =>
          rw [hd] at hopts
          cases dv with
          | vList opts =>
            have hrows := exMapM_ok (fun o ho => depositRow_ok hb (by
              have := List.all_eq_true.mp hopts o ho
              simpa using this))
            obtain ⟨rowsb, hrowsb⟩ := exOk_exists hrows
            exact ⟨rowsb, by simp [hd, hrowsb], by
              rw [exMapM_length hrowsb]; simp [optsOf, hd]⟩
          | vNull => simp at hopts
          | vBool x => simp at hopts
          | vNum x => simp at hopts
          | vStr x => simp at hopts
          | vDict x => simp at hopts
      | vNull => simp [wfBalanceEntry] at hb
      | vBool x => simp [wfBalanceEntry] at hb
      | vNum x => simp [wfBalanceEntry] at hb
      | vStr x => simp [wfBalanceEntry] at hb
      | vList x => simp [wfBalanceEntry] at hb
    obtain ⟨rowsb, hhb, hhl⟩ := hhead
    refine ⟨rowsb :: rowss, ?_, ?_⟩
    · simp [exMapM, hhb, hr]
    · simp [hlen, hhl]

theorem exMapM_const_nil {f : α → Except String (List β)} :
    ∀ {xs : List α}, (∀ x ∈ xs, f x = .ok []) → exMapM f xs = .ok (xs.map fun _ => []) := by
  intro xs
  induction xs with
  | nil => intro _; rfl
  | cons x rest ih =>
    intro h
    simp [exMapM, h x (List.mem_cons_self x rest),
      ih (fun z hz => h z (List.mem_cons_of_mem x hz))]

theorem flat_of_nils : ∀ (xs : List α), flat (xs.map fun _ => ([] : List β)) = [] := by
  intro xs
  induction xs with
  | nil => rfl
  | cons x rest ih => simpa [flat] using ih

/-! ## Claim theorems -/

/-- C1 (corrected): on payloads whose present fields are well-typed, all
four formatters return a result without raising, and missing fields degrade
to defaults; but (see `formatter_raises_on_null_network`) a present-but-null
or type-mismatched field can make a formatter raise, so the original
"for every input payload, regardless of shape" claim fails. -/
theorem formatters_total_on_welltyped (v1 v2 v3 v4 : Value)
    (h1 : wfBalances v1 = true) (h2 : wfDepositOptions v2 = true)
    (h3 : wfPositions v3 = true) (h4 : wfBlob v4 = true) :
    exOk (format_user_balances v1) = true ∧ exOk (format_deposit_options v2) = true ∧
    exOk (format_positions v3) = true ∧ exOk (format_transaction_blob v4) = true :=
  ⟨format_user_balances_ok h1, format_deposit_options_ok h2, format_positions_ok h3,
    format_transaction_blob_ok h4⟩

/-- Witness for C1 at concrete well-typed payloads for all four formatters. -/
theorem formatters_total_on_welltyped_witness :
    exOk (format_user_balances (vDict [("data", vList [vDict [("symbol", vStr "USDC"),
      ("balanceNative", vStr "5"), ("balanceUsd", vNum 5),
      ("network", vDict [("name", vStr "base")])]])])) = true ∧
    exOk (format_deposit_options (vDict [("userBalances", vList [vDict
      [("asset", vDict [("symbol", vStr "USDC"), ("balanceUsd", vStr "12.5")]),
       ("depositOptions", vList [vDict [("network", vDict [("name", vStr "base")]),
        ("name", vStr "Vault"), ("protocol", vDict [("name", vStr "Aave")]),
        ("apy", vDict [("total", vNum (mkRat 5 100))])]])]])])) = true ∧
    exOk (format_positions (vDict [("data", vList [vDict
      [("network", vDict [("name", vStr "base")]),
       ("protocol", vDict [("name", vStr "Aave")]), ("name", vStr "Vault"),
       ("asset", vDict [("symbol", vStr "USDC"), ("balanceUsd", vNum 3)]),
       ("apy", vDict [("total", vNum (mkRat 5 100))])]])])) = true ∧
    exOk (format_transaction_blob (vDict [("to", vStr "0xabc"),
      ("actions", vList [vDict [("name", vStr "Approve"),
        ("tx", vDict [("data", vStr "0xdeadbeef")])], vStr "raw"])])) = true :=
  formatters_total_on_welltyped _ _ _ _ rfl rfl rfl rfl

/-- Counterexample to C1 as stated: a `network` field that is present but
null makes `format_positions` raise `AttributeError` instead of degrading
to `"N/A"`. -/
theorem formatter_raises_on_null_network :
    exOk (format_positions (vDict [("data", vList [vDict [("network", vNull)]])])) = false :=
  rfl

/-- C2 (code bug): a present-but-empty `data` list is falsy in Python, so
both formatters return their "unavailable" message; the distinct
`"No idle assets found"` / `"No active positions found"` branches guarded by
the `has_*` flags are unreachable. -/
theorem empty_data_list_yields_unavailable_message :
    format_user_balances (vDict [("data", vList [])]) =
      .ok (.message "No idle assets available")
    ∧ format_positions (vDict [("data", vList [])]) =
      .ok (.message "No positions available")
    ∧ "No idle assets available" ≠ "No idle assets found"
    ∧ "No positions available" ≠ "No active positions found" :=
  ⟨rfl, rfl, by decide, by decide⟩

/-- C3 (corrected): the Network column of a deposit-option row is the
network mapping's `name` (default `"N/A"`) when `network` is a mapping, and
`"N/A"` when it is absent; a string-valued `network` raises
`AttributeError` instead of being used directly. -/
theorem network_column_resolution (es d : List (String × Value)) :
    (dlookup es "network" = none → networkNameOfOption (vDict es) = .ok (vStr "N/A"))
    ∧ (dlookup es "network" = some (vDict d) →
        networkNameOfOption (vDict es) = .ok ((dlookup d "name").getD (vStr "N/A")))
    ∧ (∀ s, dlookup es "network" = some (vStr s) →
        exOk (networkNameOfOption (vDict es)) = false) := by
  refine ⟨?_, ?_, ?_⟩
  · intro h
    simp [networkNameOfOption, h, dlookup]
  · intro h
    simp [networkNameOfOption, h]
  · intro s h
    simp [networkNameOfOption, h, pyGetD]

/-- Witness for C3 on a mapping-valued network field. -/
theorem network_column_resolution_witness :
    networkNameOfOption (vDict [("network", vDict [("name", vStr "base")])]) =
      .ok (vStr "base") := by
  have h := (network_column_resolution [("network", vDict [("name", vStr "base")])]
    [("name", vStr "base")]).2.1 rfl
  exact h.trans (by rfl)

/-- Counterexample to C3 as stated: with `network` a plain string the whole
formatter raises rather than using the string as the Network column. -/
theorem network_string_raises :
    exOk (format_deposit_options (vDict [("userBalances", vList [vDict
      [("asset", vDict [("symbol", vStr "USDC")]),
       ("depositOptions", vList [vDict [("network", vStr "base"),
        ("name", vStr "V")]])]])])) = false :=
  rfl

/-- C4: the USD formatting maps `None` and `0` to `"N/A"` (falsy treated as
missing) and the numeric string `"1234.5"` to `"$1234.50"`. -/
theorem formatUsd_cases :
    formatUsd vNull = .ok "N/A" ∧ formatUsd (vNum 0) = .ok "N/A" ∧
    formatUsd (vStr "1234.5") = .ok "$1234.50" :=
  ⟨rfl, rfl, rfl⟩

/-- C5 (corrected): the APY formatting returns `"N/A"` for absent, null and
zero values, and renders any truthy numeric value as `value * 100` rounded
to two decimals with `"%"` appended; a truthy non-numeric value raises (see
`formatPercent_nonnumeric_raises`) instead of returning `"N/A"`. -/
theorem formatPercent_cases :
    formatPercent vNull = .ok "N/A" ∧ formatPercent (vNum 0) = .ok "N/A" ∧
    formatPercent (vNum 0.1523) = .ok "15.23%" ∧
    (∀ q : ℚ, q ≠ 0 → formatPercent (vNum q) = .ok (formatFixed (q * 100) 2 ++ "%")) := by
  refine ⟨rfl, rfl, ?_, ?_⟩
  · rw [show (0.1523 : ℚ) = mkRat 1523 10000 by rw [Rat.mkRat_eq_div]; norm_num]
    rfl
  · intro q hq
    simp [formatPercent, truthy, hq, qmul100_eq]

/-- Witness for C5 on a concrete nonzero APY value. -/
theorem formatPercent_cases_witness : formatPercent (vNum (mkRat 1 2)) = .ok "50.00%" := by
  have h := formatPercent_cases.2.2.2 (mkRat 1 2)
    (by rw [Rat.mkRat_eq_div]; norm_num)
  rw [h, show (mkRat 1 2 * 100 : ℚ) = (50 : ℚ) by rw [Rat.mkRat_eq_div]; norm_num]
  rfl

/-- Counterexample to C5 as stated: a truthy non-numeric APY value raises
instead of producing `"N/A"`. -/
theorem formatPercent_nonnumeric_raises :
    exOk (formatPercent (vStr "abc")) = false := rfl

/-- C6 (corrected): truncation is idempotent for every key and string value
provided the max length is non-negative and, when the key is `"data"`, at
least 20; outside that range re-application doubles the ellipsis (see
`truncate_value_not_idempotent_for_data_key`). -/
theorem truncate_value_idempotent (key value : String) (m : ℤ)
    (h0 : 0 ≤ m) (hdta : key = "data" → 20 ≤ m) :
    truncate_value key (truncate_value key value m) m = truncate_value key value m :=
  congrArg String.mk
    (truncList_idem (key == "data") value.data m h0 (fun hb => hdta (by simpa using hb)))

/-- Witness for C6 at a concrete key, value and max length. -/
theorem truncate_value_idempotent_witness :
    truncate_value "k" (truncate_value "k" "abcdefgh" 5) 5 =
      truncate_value "k" "abcdefgh" 5 :=
  truncate_value_idempotent "k" "abcdefgh" 5 (by decide) (by decide)

/-- Counterexample to C6 as stated: for the `data` key with max length 18, a
20-character value truncates to 21 characters, and a second application
truncates again, doubling part of the ellipsis. -/
theorem truncate_value_not_idempotent_for_data_key :
    truncate_value "data" (truncate_value "data" "aaaaaaaaaaaaaaaaaaaa" 18) 18 ≠
      truncate_value "data" "aaaaaaaaaaaaaaaaaaaa" 18 := by
  decide

/-- C7: on well-typed inputs with at least one entry, the balance and
position tables have exactly one data row per input entry (row `i` built
from entry `i`), and the deposit-option table has exactly the sum over
balance entries of their `depositOptions` counts. -/
theorem row_count_invariants
    (es1 : List (String × Value)) (items : List Value)
    (h1d : dlookup es1 "data" = some (vList items)) (h1w : items.all wfAsset = true)
    (h1n : items ≠ [])
    (es2 : List (String × Value)) (ubs : List Value)
    (h2d : dlookup es2 "userBalances" = some (vList ubs))
    (h2w : ubs.all wfBalanceEntry = true) (h2n : ubs ≠ [])
    (es3 : List (String × Value)) (ps : List Value)
    (h3d : dlookup es3 "data" = some (vList ps)) (h3w : ps.all wfPosition = true)
    (h3n : ps ≠ []) :
    (∃ rows, format_user_balances (vDict es1) = .ok (.table balanceHeaders rows)
      ∧ rows.length = items.length
      ∧ ∀ i (hi : i < items.length) (hi2 : i < rows.length),
          balanceRow (items.get ⟨i, hi⟩) = .ok (rows.get ⟨i, hi2⟩))
    ∧ (∃ rows, format_deposit_options (vDict es2) = .ok (.table depositHeaders rows)
      ∧ rows.length = (ubs.map (fun b => (optsOf b).length)).sum)
    ∧ (∃ rows, format_positions (vDict es3) = .ok (.table positionHeaders rows)
      ∧ rows.length = ps.length
      ∧ ∀ i (hi : i < ps.length) (hi2 : i < rows.length),
          positionRow (ps.get ⟨i, hi⟩) = .ok (rows.get ⟨i, hi2⟩)) := by
  refine ⟨?_, ?_, ?_⟩
  · have htr : truthy (vDict es1) = true := by
      cases es1 with
      | nil => simp [dlookup] at h1d
      | cons e r => rfl
    have htr2 : truthy (vList items) = true := by
      cases items with
      | nil => exact absurd rfl h1n
      | cons b r => rfl
    have hemp : items.isEmpty = false := by
      cases items with
      | nil => exact absurd rfl h1n
      | cons b r => rfl
    obtain ⟨rows, hrows⟩ := exOk_exists (@exMapM_ok _ _ balanceRow items
      (fun x hx => balanceRow_ok (by simpa using List.all_eq_true.mp h1w x hx)))
    refine ⟨rows, ?_, exMapM_length hrows, fun i hi hi2 => exMapM_get hrows i hi hi2⟩
    unfold format_user_balances
    simp only [htr, if_true, pyGetD_dict, ebind_ok, h1d, Option.getD_some, htr2, hrows,
      hemp, Bool.false_eq_true, if_false]
  · have htr : truthy (vDict es2) = true := by
      cases es2 with
      | nil => simp [dlookup] at h2d
      | cons e r => rfl
    have htr2 : truthy (vList ubs) = true := by
      cases ubs with
      | nil => exact absurd rfl h2n
      | cons b r => rfl
    obtain ⟨rowss, hr, hlen⟩ := depositRows_lengths h2w
    refine ⟨flat rowss, ?_, ?_⟩
    · unfold format_deposit_options
      simp only [htr, if_true, pyGetD_dict, ebind_ok, h2d, Option.getD_some, htr2,
        pyIter_list, hr]
    · rw [flat_length, hlen]
  · have htr : truthy (vDict es3) = true := by
      cases es3 with
      | nil => simp [dlookup] at h3d
      | cons e r => rfl
    have htr2 : truthy (vList ps) = true := by
      cases ps with
      | nil => exact absurd rfl h3n
      | cons b r => rfl
    have hemp : ps.isEmpty = false := by
      cases ps with
      | nil => exact absurd rfl h3n
      | cons b r => rfl
    obtain ⟨rows, hrows⟩ := exOk_exists (@exMapM_ok _ _ positionRow ps
      (fun x hx => positionRow_ok (by simpa using List.all_eq_true.mp h3w x hx)))
    refine ⟨rows, ?_, exMapM_length hrows, fun i hi hi2 => exMapM_get hrows i hi hi2⟩
    unfold format_positions
    simp only [htr, if_true, pyGetD_dict, ebind_ok, h3d, Option.getD_some, htr2, hrows,
      hemp, Bool.false_eq_true, if_false]

/-- Witness for C7 on concrete one-entry payloads (the deposit-option entry
carrying two options). -/
theorem row_count_invariants_witness :
    (∃ rows, format_user_balances (vDict [("data", vList [vDict [("symbol", vStr "USDC"),
        ("balanceUsd", vNum 7)]])]) = .ok (.table balanceHeaders rows)
      ∧ rows.length = [vDict [("symbol", vStr "USDC"), ("balanceUsd", vNum 7)]].length
      ∧ ∀ i (hi : i < [vDict [("symbol", vStr "USDC"), ("balanceUsd", vNum 7)]].length)
          (hi2 : i < rows.length),
          balanceRow ([vDict [("symbol", vStr "USDC"), ("balanceUsd", vNum 7)]].get ⟨i, hi⟩) =
            .ok (rows.get ⟨i, hi2⟩))
    ∧ (∃ rows, format_deposit_options (vDict [("userBalances", vList [vDict
        [("asset", vDict [("symbol", vStr "USDC")]),
         ("depositOptions", vList [vDict [("name", vStr "V1")],
          vDict [("name", vStr "V2")]])]])]) = .ok (.table depositHeaders rows)
      ∧ rows.length = ([vDict [("asset", vDict [("symbol", vStr "USDC")]),
          ("depositOptions", vList [vDict [("name", vStr "V1")],
           vDict [("name", vStr "V2")]])]].map (fun b => (optsOf b).length)).sum)
    ∧ (∃ rows, format_positions (vDict [("data", vList [vDict [("name", vStr "V")]])]) =
          .ok (.table positionHeaders rows)
      ∧ rows.length = [vDict [("name", vStr "V")]].length
      ∧ ∀ i (hi : i < [vDict [("name", vStr "V")]].length) (hi2 : i < rows.length),
          positionRow ([vDict [("name", vStr "V")]].get ⟨i, hi⟩) = .ok (rows.get ⟨i, hi2⟩)) := by
  refine row_count_invariants _ _ ?_ ?_ ?_ _ _ ?_ ?_ ?_ _ _ ?_ ?_ ?_ <;>
    first
      | rfl
      | simp

/-- C8 (corrected): with a list-valued `actions` field the blob formatter
appends a spacer row, a Total Actions row, a spacer row, then the actions in
order (1-indexed), with a spacer row after each mapping-shaped action except
the last action; no spacer follows a non-mapping action (see
`no_spacer_after_nondict_action`). -/
theorem transaction_actions_layout (es : List (String × Value)) (acts : List Value)
    (h : dlookup es "actions" = some (vList acts)) :
    format_transaction_blob (vDict es) =
      ebind (renderActionsDecl 0 acts) fun ar =>
        .ok (.table ["Property", "Value"]
          (baseRows es ++ [["", ""], ["Total Actions", toString acts.length], ["", ""]] ++ ar)) := by
  have htr : truthy (vDict es) = true := by
    cases es with
    | nil => simp [dlookup] at h
    | cons e r => rfl
  simp only [format_transaction_blob, htr, if_true, h]
  rw [actionRowsLoop_eq_decl acts.length acts 0 (by simp)]
  cases hl : renderActionsDecl 0 acts with
  | error e => simp
  | ok ar => simp

/-- Witness for C8 at a concrete two-action transaction. -/
theorem transaction_actions_layout_witness :
    format_transaction_blob (vDict [("actions", vList [vStr "x", vStr "y"])]) =
      ebind (renderActionsDecl 0 [vStr "x", vStr "y"]) fun ar =>
        .ok (.table ["Property", "Value"]
          (baseRows [("actions", vList [vStr "x", vStr "y"])] ++
            [["", ""], ["Total Actions", toString ([vStr "x", vStr "y"] : List Value).length],
             ["", ""]] ++ ar)) :=
  transaction_actions_layout _ _ rfl

/-- Counterexample to C8 as stated: two consecutive non-mapping actions are
rendered with no spacer row between them. -/
theorem no_spacer_after_nondict_action :
    format_transaction_blob (vDict [("actions", vList [vStr "x", vStr "y"])]) =
      .ok (.table ["Property", "Value"]
        [["", ""], ["Total Actions", "2"], ["", ""], ["Action 1", "x"], ["Action 2", "y"]])
    ∧ ([["", ""], ["Total Actions", "2"], ["", ""], ["Action 1", "x"], ["Action 2", "y"]] :
        List (List String)) ≠
      [["", ""], ["Total Actions", "2"], ["", ""], ["Action 1", "x"], ["", ""],
       ["Action 2", "y"]] :=
  ⟨rfl, by decide⟩

/-- C9: whenever the first balance entry of the deposit-options response has
at least three deposit options, the workflow driver selects the option at
index 2 in input order — the conclusion does not depend on any APY field of
the options, so the selection is not a ranking by yield. -/
theorem driver_selects_third_option (es fes : List (String × Value)) (rest opts : List Value)
    (h1 : dlookup es "userBalances" = some (vList (vDict fes :: rest)))
    (h2 : dlookup fes "depositOptions" = some (vList opts))
    (h3 : 3 ≤ opts.length) :
    selectThirdOption (vDict es) = .ok (opts.get? 2) := by
  have htr : truthy (vDict es) = true := by
    cases es with
    | nil => simp [dlookup] at h1
    | cons e r => rfl
  obtain ⟨o, ho⟩ : ∃ o, opts.get? 2 = some o :=
    ⟨opts.get ⟨2, by omega⟩, List.get?_eq_get (by omega)⟩
  have htr2 : truthy (vList (vDict fes :: rest)) = true := rfl
  unfold selectThirdOption
  rw [htr]
  simp only [if_true, pyGetD_dict, ebind_ok, h1, Option.getD_some, htr2, pyLen,
    pyIndex, List.get?_cons_zero, h2, h3, ho]
  simp [Nat.succ_pos, h3, ho]

/-- Witness for C9: the third option is selected even though it has the
lowest APY of the three. -/
theorem driver_selects_third_option_witness :
    selectThirdOption (vDict
      [("userBalances", vList
        [vDict
          [("depositOptions", vList
            [vDict [("name", vStr "A"), ("apy", vDict [("total", vNum (mkRat 9 10))])],
             vDict [("name", vStr "B"), ("apy", vDict [("total", vNum (mkRat 8 10))])],
             vDict [("name", vStr "C"), ("apy", vDict [("total", vNum (mkRat 1 100))])]])]])]) =
      .ok (some (vDict [("name", vStr "C"), ("apy", vDict [("total", vNum (mkRat 1 100))])])) :=
  (driver_selects_third_option
    [("userBalances", vList
      [vDict
        [("depositOptions", vList
          [vDict [("name", vStr "A"), ("apy", vDict [("total", vNum (mkRat 9 10))])],
           vDict [("name", vStr "B"), ("apy", vDict [("total", vNum (mkRat 8 10))])],
           vDict [("name", vStr "C"), ("apy", vDict [("total", vNum (mkRat 1 100))])]])]])]
    [("depositOptions", vList
      [vDict [("name", vStr "A"), ("apy", vDict [("total", vNum (mkRat 9 10))])],
       vDict [("name", vStr "B"), ("apy", vDict [("total", vNum (mkRat 8 10))])],
       vDict [("name", vStr "C"), ("apy", vDict [("total", vNum (mkRat 1 100))])]])]
    []
    [vDict [("name", vStr "A"), ("apy", vDict [("total", vNum (mkRat 9 10))])],
     vDict [("name", vStr "B"), ("apy", vDict [("total", vNum (mkRat 8 10))])],
     vDict [("name", vStr "C"), ("apy", vDict [("total", vNum (mkRat 1 100))])]]
    rfl rfl (by simp)).trans rfl

/-- C10: a non-empty `userBalances` list whose entries all lack deposit
options yields a rendered table with the usual headers and zero data rows —
`format_deposit_options` has no "none found" fallback message. -/
theorem deposit_options_empty_rows_table (es : List (String × Value)) (ubs : List Value)
    (h1 : dlookup es "userBalances" = some (vList ubs)) (h2 : ubs ≠ [])
    (h3 : ∀ b ∈ ubs, ∃ bes, b = vDict bes ∧
      (dlookup bes "depositOptions" = none ∨ dlookup bes "depositOptions" = some (vList []))) :
    format_deposit_options (vDict es) = .ok (.table depositHeaders []) := by
  have htr : truthy (vDict es) = true := by
    cases es with
    | nil => simp [dlookup] at h1
    | cons e r => rfl
  have htr2 : truthy (vList ubs) = true := by
    cases ubs with
    | nil => exact absurd rfl h2
    | cons b r => rfl
  have hinner : ∀ b ∈ ubs, (ebind (pyGetD b "depositOptions" (vList [])) fun optsV =>
      ebind (pyIter optsV) fun opts =>
      exMapM (depositRow b) opts) = .ok [] := by
    intro b hb
    obtain ⟨bes, rfl, hcase⟩ := h3 b hb
    cases hcase with
    | inl hnone => simp [hnone, exMapM]
    | inr hemptyOpts => simp [hemptyOpts, exMapM]
  unfold format_deposit_options
  simp only [htr, if_true, pyGetD_dict, ebind_ok, h1, Option.getD_some, htr2, pyIter_list,
    exMapM_const_nil hinner, flat_of_nils]

/-- Witness for C10: one entry with an empty option list and one with the
field missing altogether. -/
theorem deposit_options_empty_rows_table_witness :
    format_deposit_options (vDict [("userBalances", vList
      [vDict [("depositOptions", vList [])], vDict [("x", vNull)]])]) =
      .ok (.table depositHeaders []) := by
  refine deposit_options_empty_rows_table _ _ rfl (by simp) ?_
  intro b hb
  simp only [List.mem_cons, List.not_mem_nil, or_false] at hb
  cases hb with
  | inl hbe => exact ⟨_, hbe, Or.inr rfl⟩
  | inr hbe => exact ⟨_, hbe, Or.inl rfl⟩
